import Mathlib

/-!
Verification of the extraction-and-pagination core of `slag`
(`src/slag/__init__.py`), a static blog generator that turns git commit
histories into paginated HTML pages.

Strings are modelled as `List Char`.  Python string/`os.path` operations used
by the source are embedded faithfully below (`pySplit1` for
`str.split(maxsplit=1)`, `splitParas` for `str.split` on a blank line,
`pyStrip` for `str.strip()`, `os_join`/`os_abspath`/`basename` for the
`os.path` functions).  Fallible code (raising Python exceptions) is embedded
with `Except PyErr`; the filesystem and the git library are passed explicitly
as functions (`fs`, `env`).
-/

deriving instance DecidableEq for Except

namespace Slag

/-- Python whitespace characters, as used by `str.split()` / `str.strip()`
(space, tab, newline, carriage return, vertical tab, form feed). -/
def isPyWS (c : Char) : Bool :=
  c == ' ' || c == '\t' || c == '\n' || c == '\r' || c == '\x0b' || c == '\x0c'

/-- Drop leading Python whitespace. -/
def dropWS (cs : List Char) : List Char := cs.dropWhile isPyWS

/-- Embedding of Python `s.split(maxsplit=1)`: split on runs of whitespace,
at most once.  Returns `[]` for an all-whitespace string, `[tok]` when there
is no second field, and `[tok, rest]` otherwise, where `rest` runs from the
first non-whitespace character after the first field to the end of the
string, kept verbatim. -/
def pySplit1 (s : List Char) : List (List Char) :=
  let cs := dropWS s
  if cs.isEmpty then []
  else
    let tok := cs.takeWhile (fun c => !isPyWS c)
    let rest := dropWS (cs.dropWhile (fun c => !isPyWS c))
    if rest.isEmpty then [tok] else [tok, rest]

/-- Embedding of Python `s.strip()`: remove leading and trailing whitespace. -/
def pyStrip (cs : List Char) : List Char :=
  ((cs.dropWhile isPyWS).reverse.dropWhile isPyWS).reverse

/-- Embedding of Python `s.split(sep)` for a one-character separator,
keeping empty fields, used by `posixpath` on the separator character. -/
def splitOnChar (sep : Char) : List Char → List (List Char)
  | [] => [[]]
  | c :: rest =>
    if c = sep then [] :: splitOnChar sep rest
    else
      match splitOnChar sep rest with
      | [] => [[c]]
      | p :: ps => (c :: p) :: ps

/-- Embedding of Python `message.split(chr(10) ++ chr(10))` (the blank-line
paragraph separator used by `find_posts`): split on each leftmost occurrence
of two consecutive newline characters, keeping empty fields. -/
def splitParas : List Char → List (List Char)
  | [] => [[]]
  | [c] => [[c]]
  | c1 :: c2 :: rest =>
    if c1 = '\n' ∧ c2 = '\n' then [] :: splitParas rest
    else
      match splitParas (c2 :: rest) with
      | [] => [[c1]]
      | p :: ps => (c1 :: p) :: ps

/-- Embedding of `posixpath.join(a, b)` for two arguments: `b` if `b` is
absolute, otherwise `a` and `b` glued with a single separator. -/
def os_join (a b : List Char) : List Char :=
  if b.head? = some '/' then b
  else if a = [] ∨ a.getLast? = some '/' then a ++ b
  else a ++ '/' :: b

/-- Embedding of `posixpath.normpath`: collapse repeated separators and
resolve single-dot and double-dot components, preserving an initial double
slash exactly as CPython does. -/
def normpath (p : List Char) : List Char :=
  if p = [] then ['.']
  else
    let slashes : Nat :=
      if ("//".data).isPrefixOf p ∧ ¬ ("///".data).isPrefixOf p then 2
      else if p.head? = some '/' then 1 else 0
    let comps := (splitOnChar '/' p).filter (fun c => c ≠ [] ∧ c ≠ ['.'])
    let newComps := comps.foldl
      (fun acc c =>
        if c ≠ ['.', '.'] ∨ (slashes = 0 ∧ acc = []) ∨ acc.getLast? = some ['.', '.'] then
          acc ++ [c]
        else acc.dropLast)
      []
    let res := List.replicate slashes '/' ++ List.intercalate ['/'] newComps
    if res = [] then ['.'] else res

/-- Embedding of `os.path.abspath` with the process working directory passed
explicitly: join onto the working directory when relative, then normalise. -/
def os_abspath (cwd p : List Char) : List Char :=
  if p.head? = some '/' then normpath p else normpath (os_join cwd p)

/-- Embedding of `os.path.basename`: everything after the last separator. -/
def basename (p : List Char) : List Char :=
  (p.reverse.takeWhile (fun c => c ≠ '/')).reverse

/-- Python exceptions that the embedded code can raise: `IndexError` from
`split(maxsplit=1)[1]`, the two `pygit2` failures for a repository path, and
the `OSError` of reading a missing file. -/
inductive PyErr
  | indexError
  | repoNotFound
  | headUnresolvable
  | ioError
deriving DecidableEq

/-- The `Code` attrs class (`src/slag/__init__.py` lines 74-83): an
embedded-content directive with the path as written, the resolved absolute
path, and the markdown flag (whose attrs default is `False`). -/
structure Code where
  path : List Char
  real_path : List Char
  is_markdown : Bool
deriving DecidableEq

/-- Reading `Code.data` (lines 80-83): open `real_path` and read its bytes.
The filesystem is passed explicitly as a partial map from paths to contents;
a missing file is the `ioError` outcome of `open`. -/
def Code.data (fs : List Char → Option (List Char)) (c : Code) : Except PyErr (List Char) :=
  match fs c.real_path with
  | some bytes => .ok bytes
  | none => .error .ioError

/-- A body item of a post: `magic` returns either the paragraph itself or a
`Code` directive (the Python function returns a string or a `Code`). -/
inductive BodyItem
  | text : List Char → BodyItem
  | code : Code → BodyItem
deriving DecidableEq

/-- The `Post` attrs class (lines 58-65). `time` is the integer commit time,
`author` and `hash` are kept opaque as strings. -/
structure Post where
  repo : List Char
  title : List Char
  body : List BodyItem
  time : Int
  author : List Char
  hash : List Char
deriving DecidableEq

/-- The `Link` attrs class (lines 68-71). -/
structure Link where
  title : List Char
  href : List Char
deriving DecidableEq

/-- One commit as surfaced by `pygit2` to `find_posts`: message text, author,
commit time and hex object id. -/
structure Commit where
  message : List Char
  author : List Char
  commit_time : Int
  hex : List Char
deriving DecidableEq

/-- The `magic` directive parser (lines 86-102).  A paragraph starting with
the raw prefix `!file` or `!code` is a non-markdown directive; otherwise one
starting with `!md` is a markdown directive; anything else is returned
unchanged.  The path is `para.split(maxsplit=1)[1].strip()`; the missing
second field makes the indexing raise `IndexError`.  `real_path` is
`os.path.abspath(os.path.join(path, file))`, with the working directory
`cwd` of the process made explicit. -/
def magic (cwd path para : List Char) : Except PyErr BodyItem :=
  if ("!file".data).isPrefixOf para || ("!code".data).isPrefixOf para then
    match (pySplit1 para)[1]? with
    | none => .error .indexError
    | some f =>
      let file := pyStrip f
      .ok (.code { path := file, real_path := os_abspath cwd (os_join path file),
                   is_markdown := false })
  else if ("!md".data).isPrefixOf para then
    match (pySplit1 para)[1]? with
    | none => .error .indexError
    | some f =>
      let file := pyStrip f
      .ok (.code { path := file, real_path := os_abspath cwd (os_join path file),
                   is_markdown := true })
  else
    .ok (.text para)

/-- The paginator loop of `pager` (lines 48-55), with the accumulated current
page and the running item index `i` made explicit; a page is emitted whenever
`(i + 1) % page_size == 0`, and the accumulated page is emitted once more
when the input ends. -/
def pagerGo (page_size : Nat) : List α → List α → Nat → List (List α)
  | [], page, _ => [page]
  | x :: xs, page, i =>
    if (i + 1) % page_size = 0 then (page ++ [x]) :: pagerGo page_size xs [] (i + 1)
    else pagerGo page_size xs (page ++ [x]) (i + 1)

/-- The `pager` generator (lines 48-55), collected into a list of pages. -/
def pager (l : List α) (page_size : Nat) : List (List α) :=
  pagerGo page_size l [] 0

/-- A Python list comprehension over fallible elements: map, short-circuiting
on the first raised exception (the comprehensions in `find_posts` and the
`for` loops of `render_all` have this shape, since nothing catches). -/
def mapExcept (f : α → Except ε β) : List α → Except ε (List β)
  | [] => .ok []
  | x :: xs =>
    match f x with
    | .error e => .error e
    | .ok y =>
      match mapExcept f xs with
      | .error e => .error e
      | .ok ys => .ok (y :: ys)

/-- The per-commit body of the `find_posts` loop (lines 121-132): split the
message into paragraphs, take the first as the title, run `magic` over the
rest, and fill the remaining `Post` fields from the commit metadata.  The
split of a commit message is never empty, so `paras.headD` is exactly the
Python `paras[0]`. -/
def extractPost (cwd path name : List Char) (c : Commit) : Except PyErr Post :=
  let paras := splitParas c.message
  match mapExcept (magic cwd path) paras.tail with
  | .error e => .error e
  | .ok body =>
    .ok { repo := name, title := paras.headD [], body := body,
          time := c.commit_time, author := c.author, hash := c.hex }

/-- `find_posts` (lines 115-134): discover and open the repository at `path`,
resolve its head and walk its commits, producing one `Post` per commit.  The
git library is the explicit environment `env`, mapping a path to the walked
commit list or to the exception `pygit2` raises (`repoNotFound` when
discovery fails, `headUnresolvable` when the head cannot be resolved); the
walk order of `env` is the `GIT_SORT_TIME` order. -/
def find_posts (env : List Char → Except PyErr (List Commit)) (cwd path : List Char) :
    Except PyErr (List Post) :=
  match env path with
  | .error e => .error e
  | .ok commits => mapExcept (extractPost cwd path (basename (os_abspath cwd path))) commits

/-- Stable insertion of a post into a time-descending list: the post goes in
front of the first element whose time is not larger, hence in front of
posts of equal time that occurred later in the input. -/
def insertPostDesc (p : Post) : List Post → List Post
  | [] => [p]
  | q :: qs => if q.time ≤ p.time then p :: q :: qs else q :: insertPostDesc p qs

/-- Embedding of `all_posts.sort(key=lambda x: x.time, reverse=True)`
(line 203): Python `list.sort` is a stable sort keyed on `time` only, and a
stable sort is uniquely determined by comparator and input, so this stable
insertion sort computes exactly its result. -/
def sortPosts : List Post → List Post
  | [] => []
  | p :: ps => insertPostDesc p (sortPosts ps)

/-- Python dict assignment `repos[name] = posts` on an insertion-ordered
dict: replace in place when the key exists, append otherwise. -/
def updateAssoc (m : List (List Char × List Post)) (k : List Char) (v : List Post) :
    List (List Char × List Post) :=
  match m with
  | [] => [(k, v)]
  | (k', v') :: rest => if k' = k then (k, v) :: rest else (k', v') :: updateAssoc rest k v

/-- The state built by the repository loop of `render_all` (lines 182-201):
the navigation links, the name-to-posts mapping, and the concatenated
`all_posts` list. -/
structure AggState where
  links : List Link
  repos : List (List Char × List Post)
  all_posts : List Post
deriving DecidableEq

/-- The initial state of the repository loop: `links` holding the root link,
empty `repos` and `all_posts` (lines 182-189). -/
def initState : AggState :=
  { links := [{ title := "/".data, href := [] }], repos := [], all_posts := [] }

/-- The repository loop of `render_all` (lines 193-201): for each configured
path run `find_posts`, record the posts under the repository's display name,
extend `all_posts`, and append the navigation link.  A raised exception
propagates (the loop body is not wrapped in any handler). -/
def aggLoop (env : List Char → Except PyErr (List Commit)) (cwd : List Char) :
    AggState → List (List Char) → Except PyErr AggState
  | st, [] => .ok st
  | st, path :: rest =>
    match find_posts env cwd path with
    | .error e => .error e
    | .ok posts =>
      let name := basename (os_abspath cwd path)
      aggLoop env cwd
        { links := st.links ++ [{ title := '/' :: name, href := name ++ (".html".data) }],
          repos := updateAssoc st.repos name posts,
          all_posts := st.all_posts ++ posts }
        rest

/-- The aggregation phase of `render_all` (lines 182-203): run the repository
loop over the configured paths, then sort the combined list by time
descending (line 203). -/
def aggregate (env : List Char → Except PyErr (List Commit)) (cwd : List Char)
    (paths : List (List Char)) : Except PyErr AggState :=
  match aggLoop env cwd initState paths with
  | .error e => .error e
  | .ok st => .ok { st with all_posts := sortPosts st.all_posts }

/-- The page-link list built by `render_pages` (lines 209-214): one link per
`range((len(posts) + (page_size - 1)) // page_size)` index, with the
one-based page number as title. -/
def pageLinks (href_fn : Nat → List Char) (n page_size : Nat) : List Link :=
  (List.range ((n + (page_size - 1)) / page_size)).map
    (fun i => { title := (toString (i + 1)).data, href := href_fn i })

/-- One rendered list page as handed to the template by `render_pages`
(lines 216-229): output filename, page title, the page-link list, the posts
of this page, and the `current_page` marker. -/
structure RenderedPage where
  filename : List Char
  title : List Char
  pages : List Link
  posts : List Post
  current_page : List Char
deriving DecidableEq

/-- `render_pages` (lines 207-229): build the page-link list, then emit one
rendered page per page produced by `pager`, named by the three naming
functions of the call site. -/
def render_pages (target : List Char) (page_size : Nat) (posts : List Post)
    (filename_fn href_fn title_fn : Nat → List Char) : List RenderedPage :=
  let pages := pageLinks href_fn posts.length page_size
  (pager posts page_size).enum.map
    (fun pr =>
      { filename := os_join target (filename_fn pr.1), title := title_fn pr.1,
        pages := pages, posts := pr.2, current_page := href_fn pr.1 })

/-- The per-repository filename function (line 234):
`name.html` for page 0, `name-(i+1).html` afterwards. -/
def repoFilename (name : List Char) (i : Nat) : List Char :=
  if i = 0 then name ++ (".html".data)
  else name ++ ('-' :: (toString (i + 1)).data) ++ (".html".data)

/-- The per-repository href function (line 235), identical to the filename
function at this call site. -/
def repoHref (name : List Char) (i : Nat) : List Char :=
  if i = 0 then name ++ (".html".data)
  else name ++ ('-' :: (toString (i + 1)).data) ++ (".html".data)

/-- The per-repository title function (line 236). -/
def repoTitle (name : List Char) (i : Nat) : List Char :=
  if i = 0 then '/' :: name
  else ('/' :: name) ++ (" #".data) ++ (toString (i + 1)).data

/-- The combined-feed filename function (line 241):
`index.html` for page 0, `page-(i+1).html` afterwards. -/
def combinedFilename (i : Nat) : List Char :=
  if i = 0 then "index.html".data
  else ("page-".data) ++ (toString (i + 1)).data ++ (".html".data)

/-- The combined-feed href function (line 242): the empty string for page 0,
`page-(i+1).html` afterwards. -/
def combinedHref (i : Nat) : List Char :=
  if i = 0 then []
  else ("page-".data) ++ (toString (i + 1)).data ++ (".html".data)

/-- The combined-feed title function (line 243). -/
def combinedTitle (i : Nat) : List Char :=
  if i = 0 then "/".data
  else ("/ #".data) ++ (toString (i + 1)).data

/-- The per-repository pagination call site of `render_all` (lines 231-237). -/
def renderRepoPages (target : List Char) (page_size : Nat) (name : List Char)
    (posts : List Post) : List RenderedPage :=
  render_pages target page_size posts (repoFilename name) (repoHref name) (repoTitle name)

/-- The combined-feed pagination call site of `render_all` (lines 239-244). -/
def renderCombinedPages (target : List Char) (page_size : Nat)
    (posts : List Post) : List RenderedPage :=
  render_pages target page_size posts combinedFilename combinedHref combinedTitle

/-- Modelled from the spec: the title of a post is the text of the commit
message before the first blank-line paragraph boundary (section 4.2 and the
testable property of section 8); stated independently of `splitParas` so the
two can be compared. -/
def textBeforeFirstBlank : List Char → List Char
  | [] => []
  | [c] => [c]
  | c1 :: c2 :: rest =>
    if c1 = '\n' ∧ c2 = '\n' then [] else c1 :: textBeforeFirstBlank (c2 :: rest)

/-- Modelled from the spec: the trimmed remainder of a paragraph after the
first whitespace run (section 4.1), stated independently of `pySplit1` so
the directive path produced by `magic` can be compared against it. -/
def trimmedRemainder (para : List Char) : List Char :=
  pyStrip (dropWS (para.dropWhile (fun c => !isPyWS c)))

/-! ### Lemmas about the paginator loop -/

theorem pagerGo_ne_nil {α : Type} (S : Nat) :
    ∀ (l page : List α) (i : Nat), pagerGo S l page i ≠ [] := by
  intro l
  induction l with
  | nil => intro page i; simp [pagerGo]
  | cons x xs ih =>
    intro page i
    simp only [pagerGo]
    split
    · simp
    · exact ih (page ++ [x]) (i + 1)

theorem pagerGo_join {α : Type} (S : Nat) :
    ∀ (l page : List α) (i : Nat), (pagerGo S l page i).flatten = page ++ l := by
  intro l
  induction l with
  | nil => intro page i; simp [pagerGo]
  | cons x xs ih =>
    intro page i
    simp only [pagerGo]
    split
    · simp [ih]
    · simp [ih]

theorem mod_pred_of_succ_mod_eq_zero {S i : Nat} (hS : 0 < S) (h : (i + 1) % S = 0) :
    i % S = S - 1 := by
  obtain ⟨k, hk⟩ := Nat.dvd_of_mod_eq_zero h
  match k, hk with
  | 0, hk => omega
  | k' + 1, hk =>
    rw [Nat.mul_succ] at hk
    have hi : i = S * k' + (S - 1) := by omega
    rw [hi, Nat.mul_add_mod]
    exact Nat.mod_eq_of_lt (by omega)

theorem succ_mod_of_succ_mod_ne_zero {S i : Nat} (hS : 0 < S) (h : (i + 1) % S ≠ 0) :
    (i + 1) % S = i % S + 1 := by
  rcases Nat.lt_or_ge 1 S with h2 | h2
  · have h1 : (1 : Nat) % S = 1 := Nat.mod_eq_of_lt h2
    have hm : i % S + 1 ≤ S := Nat.succ_le_of_lt (Nat.mod_lt i hS)
    rcases Nat.lt_or_eq_of_le hm with hlt | heq
    · rw [Nat.add_mod, h1]
      exact Nat.mod_eq_of_lt hlt
    · exfalso
      apply h
      rw [Nat.add_mod, h1, heq, Nat.mod_self]
  · have hone : S = 1 := by omega
    subst hone
    simp [Nat.mod_one] at h

theorem pagerGo_length {α : Type} {S : Nat} (hS : 0 < S) :
    ∀ (l page : List α) (i : Nat),
      (pagerGo S l page i).length = (i % S + l.length) / S + 1 := by
  intro l
  induction l with
  | nil =>
    intro page i
    simp [pagerGo, Nat.div_eq_of_lt (Nat.mod_lt _ hS)]
  | cons x xs ih =>
    intro page i
    simp only [pagerGo]
    split
    · rename_i h
      have hip : i % S = S - 1 := mod_pred_of_succ_mod_eq_zero hS h
      have hrw : i % S + (x :: xs).length = xs.length + S := by
        simp only [List.length_cons]
        omega
      rw [List.length_cons, ih, h, hrw, Nat.zero_add, Nat.add_div_right _ hS]
    · rename_i h
      have hst : (i + 1) % S = i % S + 1 := succ_mod_of_succ_mod_ne_zero hS h
      have hrw : i % S + 1 + xs.length = i % S + (x :: xs).length := by
        simp only [List.length_cons]
        omega
      rw [ih, hst, hrw]

theorem pagerGo_dropLast_length {α : Type} {S : Nat} (hS : 0 < S) :
    ∀ (l page : List α) (i : Nat), page.length = i % S →
      ∀ p ∈ (pagerGo S l page i).dropLast, p.length = S := by
  intro l
  induction l with
  | nil =>
    intro page i _ p hp
    simp [pagerGo] at hp
  | cons x xs ih =>
    intro page i hpage p hp
    simp only [pagerGo] at hp
    split at hp
    · rename_i h
      obtain ⟨y, ys, hy⟩ := List.exists_cons_of_ne_nil (pagerGo_ne_nil S xs [] (i + 1))
      rw [hy, List.dropLast_cons₂] at hp
      rcases List.mem_cons.mp hp with hfst | hrest
      · have hip : i % S = S - 1 := mod_pred_of_succ_mod_eq_zero hS h
        rw [hfst]
        simp only [List.length_append, List.length_cons, List.length_nil, hpage, hip]
        omega
      · rw [← hy] at hrest
        exact ih [] (i + 1) (by simp [h]) p hrest
    · rename_i h
      have hst : (i + 1) % S = i % S + 1 := succ_mod_of_succ_mod_ne_zero hS h
      exact ih (page ++ [x]) (i + 1) (by simp [hpage, hst]) p hp

theorem pagerGo_getLast_length {α : Type} {S : Nat} (hS : 0 < S) :
    ∀ (l page : List α) (i : Nat), page.length = i % S →
      (pagerGo S l page i).getLast?.map List.length = some ((i % S + l.length) % S) := by
  intro l
  induction l with
  | nil =>
    intro page i hpage
    simp [pagerGo, hpage, Nat.mod_eq_of_lt (Nat.mod_lt _ hS)]
  | cons x xs ih =>
    intro page i hpage
    simp only [pagerGo]
    split
    · rename_i h
      obtain ⟨y, ys, hy⟩ := List.exists_cons_of_ne_nil (pagerGo_ne_nil S xs [] (i + 1))
      have hip : i % S = S - 1 := mod_pred_of_succ_mod_eq_zero hS h
      have hrw : i % S + (x :: xs).length = xs.length + S := by
        simp only [List.length_cons]
        omega
      rw [hy, List.getLast?_cons_cons, ← hy, ih [] (i + 1) (by simp [h]), h, hrw,
        Nat.zero_add, Nat.add_mod_right]
    · rename_i h
      have hst : (i + 1) % S = i % S + 1 := succ_mod_of_succ_mod_ne_zero hS h
      have hrw : i % S + 1 + xs.length = i % S + (x :: xs).length := by
        simp only [List.length_cons]
        omega
      rw [ih (page ++ [x]) (i + 1) (by simp [hpage, hst]), hst, hrw]

/-- Sample post used to evaluate the paginator at concrete inputs. -/
def post1 : Post :=
  { repo := "r".data, title := "first".data, body := [], time := 3,
    author := "al".data, hash := "a1".data }

/-- Second sample post. -/
def post2 : Post :=
  { repo := "r".data, title := "second".data, body := [], time := 2,
    author := "al".data, hash := "a2".data }

/-- Third sample post. -/
def post3 : Post :=
  { repo := "r".data, title := "third".data, body := [], time := 1,
    author := "al".data, hash := "a3".data }

/-- Claim C1 (code bug): at two posts and page size two — any post count
that is a positive multiple of the page size — the combined-feed call site
renders two pages (the second one empty) while it generates only
`ceil(2 / 2) = 1` page `Link`, so the rendered page count is not
`ceil(count / page_size)` and differs from the number of page links; every
rendered page carries that one-element link list. -/
theorem render_pages_count_exceeds_links :
    (renderCombinedPages ("t".data) 2 [post1, post2]).length = 2 ∧
    (pageLinks combinedHref 2 2).length = 1 ∧
    ((renderCombinedPages ("t".data) 2 [post1, post2]).head?.map
      (fun pg => pg.pages.length)) = some 1 := by
  refine ⟨by decide, by decide, by decide⟩

/-- Claim C2 (counterexample): when the page size exactly divides a positive
post count, the final page produced by `pager` is empty rather than holding
`page_size` posts. -/
theorem pager_final_page_empty_on_exact_multiple :
    pager [post1, post2] 2 = [[post1, post2], []] := by
  decide

/-- Claim C2 (amended): for every post list and positive page size, the pages
produced by `pager` concatenate back to the input (so no post is dropped,
duplicated or reordered, and the page lengths sum to the input length), every
page except the last has exactly `page_size` posts, and the final page holds
`count mod page_size` posts — in particular an empty final page, not a full
one, when the page size evenly divides a positive count. -/
theorem pager_partitions_posts {S : Nat} (l : List Post) (hS : 0 < S) :
    (pager l S).flatten = l ∧
    ((pager l S).map List.length).sum = l.length ∧
    (pager l S).dropLast.map List.length = List.replicate ((pager l S).length - 1) S ∧
    ((pager l S).getLast?.map List.length) = some (l.length % S) := by
  have hjoin : (pager l S).flatten = l := by
    simpa using pagerGo_join S l [] 0
  refine ⟨hjoin, ?_, ?_, ?_⟩
  · rw [← List.length_flatten, hjoin]
  · rw [List.eq_replicate_iff]
    constructor
    · simp [List.length_dropLast]
    · intro b hb
      obtain ⟨p, hp, rfl⟩ := List.mem_map.mp hb
      exact pagerGo_dropLast_length hS l [] 0 (by simp) p hp
  · have := pagerGo_getLast_length hS l [] 0 (by simp)
    simpa using this

/-- Witness for `pager_partitions_posts` at three posts and page size two. -/
theorem pager_partitions_posts_witness :
    (pager [post1, post2, post3] 2).flatten = [post1, post2, post3] ∧
    ((pager [post1, post2, post3] 2).map List.length).sum = 3 ∧
    (pager [post1, post2, post3] 2).dropLast.map List.length =
      List.replicate ((pager [post1, post2, post3] 2).length - 1) 2 ∧
    ((pager [post1, post2, post3] 2).getLast?.map List.length) = some (3 % 2) :=
  pager_partitions_posts [post1, post2, post3] (by decide)

/-! ### Lemmas about the combined-feed sort -/

theorem insertPostDesc_perm (p : Post) (l : List Post) :
    (insertPostDesc p l).Perm (p :: l) := by
  induction l with
  | nil => simp [insertPostDesc]
  | cons q qs ih =>
    simp only [insertPostDesc]
    split
    · exact List.Perm.refl _
    · exact (List.Perm.cons q ih).trans (List.Perm.swap p q qs)

theorem insertPostDesc_pairwise (p : Post) (l : List Post)
    (h : l.Pairwise (fun a b => b.time ≤ a.time)) :
    (insertPostDesc p l).Pairwise (fun a b => b.time ≤ a.time) := by
  induction l with
  | nil => simp [insertPostDesc]
  | cons q qs ih =>
    rw [List.pairwise_cons] at h
    obtain ⟨hq, hqs⟩ := h
    simp only [insertPostDesc]
    split
    · rename_i hle
      rw [List.pairwise_cons]
      refine ⟨?_, ?_⟩
      · intro b hb
        rcases List.mem_cons.mp hb with rfl | hbqs
        · exact hle
        · exact le_trans (hq b hbqs) hle
      · rw [List.pairwise_cons]
        exact ⟨hq, hqs⟩
    · rename_i hgt
      push_neg at hgt
      rw [List.pairwise_cons]
      refine ⟨?_, ih hqs⟩
      intro b hb
      rcases List.mem_cons.mp ((insertPostDesc_perm p qs).mem_iff.mp hb) with rfl | hbqs
      · exact le_of_lt hgt
      · exact hq b hbqs

theorem insertPostDesc_filter (p : Post) (l : List Post) (t : Int) :
    (insertPostDesc p l).filter (fun x => x.time == t) =
      if p.time == t then p :: l.filter (fun x => x.time == t)
      else l.filter (fun x => x.time == t) := by
  induction l with
  | nil =>
    simp only [insertPostDesc]
    by_cases hp : p.time == t <;> simp [List.filter, hp]
  | cons q qs ih =>
    simp only [insertPostDesc]
    split
    · by_cases hp : p.time == t <;> simp [List.filter_cons, hp]
    · rename_i hgt
      push_neg at hgt
      by_cases hp : p.time == t
      · have hpt : p.time = t := by simpa using hp
        have hq : (q.time == t) = false := by
          rw [beq_eq_false_iff_ne]
          intro hqt
          omega
        simp [List.filter_cons, hq, ih, hp]
      · simp [List.filter_cons, ih, hp]

theorem sortPosts_perm (l : List Post) : (sortPosts l).Perm l := by
  induction l with
  | nil => simp [sortPosts]
  | cons p ps ih =>
    exact (insertPostDesc_perm p (sortPosts ps)).trans (List.Perm.cons p ih)

theorem sortPosts_pairwise (l : List Post) :
    (sortPosts l).Pairwise (fun a b => b.time ≤ a.time) := by
  induction l with
  | nil => simp [sortPosts]
  | cons p ps ih => exact insertPostDesc_pairwise p _ ih

theorem sortPosts_filter_time (l : List Post) (t : Int) :
    (sortPosts l).filter (fun x => x.time == t) = l.filter (fun x => x.time == t) := by
  induction l with
  | nil => simp [sortPosts]
  | cons p ps ih =>
    rw [sortPosts, insertPostDesc_filter, List.filter_cons]
    by_cases hp : p.time == t
    · simp [hp, ih]
    · simp [hp, ih]

/-! ### Aggregation claim theorems -/

/-- Claim C3 helper: once the repository loop reaches a failing path, the
raised exception propagates out of the whole loop, whatever state was
accumulated and whatever paths remain. -/
theorem aggLoop_failure (env : List Char → Except PyErr (List Commit)) (cwd : List Char)
    (e : PyErr) (p : List Char) (rest : List (List Char))
    (hp : find_posts env cwd p = .error e) :
    ∀ (pre : List (List Char)) (st : AggState),
      (∀ q ∈ pre, ∃ ps, find_posts env cwd q = .ok ps) →
      aggLoop env cwd st (pre ++ p :: rest) = .error e := by
  intro pre
  induction pre with
  | nil =>
    intro st _
    simp only [List.nil_append, aggLoop, hp]
  | cons q qs ih =>
    intro st hpre
    obtain ⟨ps, hq⟩ := hpre q (List.mem_cons_self q qs)
    simp only [List.cons_append, aggLoop, hq]
    exact ih _ (fun r hr => hpre r (List.mem_cons_of_mem q hr))

/-- Claim C3 (amended): a failure of `find_posts` for one configured
repository path aborts the entire run: whenever the paths before `p` succeed
and extraction for `p` raises, `render_all`'s aggregation loop propagates the
exception, so the paths after `p` are never processed and no output at all is
produced (there is no per-path error handling in the loop). -/
theorem find_posts_failure_aborts_run (env : List Char → Except PyErr (List Commit))
    (cwd : List Char) (pre : List (List Char)) (p : List Char) (rest : List (List Char))
    (e : PyErr)
    (hpre : ∀ q ∈ pre, ∃ ps, find_posts env cwd q = .ok ps)
    (hp : find_posts env cwd p = .error e) :
    aggregate env cwd (pre ++ p :: rest) = .error e := by
  unfold aggregate
  rw [aggLoop_failure env cwd e p rest hp pre initState hpre]

/-- Commit used in concrete aggregation runs. -/
def cW : Commit :=
  { message := "one".data, author := "al".data, commit_time := 7, hex := "aaa".data }

/-- Environment in which only the path `/b` is a repository (with the single
commit `cW`) and every other path fails discovery. -/
def envF : List Char → Except PyErr (List Commit) :=
  fun p => if p = "/b".data then .ok [cW] else .error .repoNotFound

/-- The post extracted from `cW` in repository `/b`. -/
def postB : Post :=
  { repo := "b".data, title := "one".data, body := [], time := 7,
    author := "al".data, hash := "aaa".data }

/-- Claim C3 (counterexample): with configured paths `/a` (not a repository)
and `/b` (a healthy repository), the whole run fails with the first path's
exception even though `find_posts` succeeds on `/b` alone — the failing path
is not skipped and the remaining repository is not processed. -/
theorem aggregate_fails_despite_healthy_second_path :
    aggregate envF ("/".data) [("/a".data), ("/b".data)] = .error .repoNotFound ∧
    find_posts envF ("/".data) ("/b".data) = .ok [postB] :=
  ⟨by decide, by decide⟩

/-- Witness for `find_posts_failure_aborts_run` with no healthy paths before
the failing one and one healthy path after it. -/
theorem find_posts_failure_aborts_run_witness :
    aggregate envF ("/".data) ([] ++ ("/a".data) :: [("/b".data)]) = .error .repoNotFound :=
  find_posts_failure_aborts_run envF ("/".data) [] ("/a".data) [("/b".data)] .repoNotFound
    (by simp) (by decide)

/-- Claim C4 (amended): the combined feed `all_posts` produced by the
aggregation phase is a permutation of the concatenation of the per-repository
post lists (the state of the loop before the sort), is sorted by `time`
descending (non-strictly), and is stable: for every time value, the posts
carrying that time appear in exactly their pre-sort order, i.e. the order of
equal-time posts follows configuration and per-repository walk order; no
commit-identifier tie-break is applied. -/
theorem aggregate_combined_stable_time_sorted (env : List Char → Except PyErr (List Commit))
    (cwd : List Char) (paths : List (List Char)) (st raw : AggState) (t : Int)
    (hagg : aggregate env cwd paths = .ok st)
    (hraw : aggLoop env cwd initState paths = .ok raw) :
    st.all_posts.Perm raw.all_posts ∧
    st.all_posts.Pairwise (fun a b => b.time ≤ a.time) ∧
    st.all_posts.filter (fun x => x.time == t) =
      raw.all_posts.filter (fun x => x.time == t) := by
  unfold aggregate at hagg
  rw [hraw] at hagg
  have h2 : Except.ok (ε := PyErr) { raw with all_posts := sortPosts raw.all_posts } =
      Except.ok st := hagg
  have hst : st = { raw with all_posts := sortPosts raw.all_posts } :=
    (Except.ok.inj h2).symm
  subst hst
  exact ⟨sortPosts_perm _, sortPosts_pairwise _, sortPosts_filter_time _ t⟩

/-- Environment for the C4 witness: the single repository `/r` with `cW`. -/
def envW : List Char → Except PyErr (List Commit) :=
  fun p => if p = "/r".data then .ok [cW] else .error .repoNotFound

/-- The post extracted from `cW` in repository `/r`. -/
def postW : Post :=
  { repo := "r".data, title := "one".data, body := [], time := 7,
    author := "al".data, hash := "aaa".data }

/-- The aggregation state after running on the single path `/r`. -/
def stW : AggState :=
  { links := [{ title := "/".data, href := [] }, { title := "/r".data, href := "r.html".data }],
    repos := [(("r".data), [postW])], all_posts := [postW] }

/-- Witness for `aggregate_combined_stable_time_sorted` on the one-repo run. -/
theorem aggregate_combined_stable_time_sorted_witness :
    stW.all_posts.Perm stW.all_posts ∧
    stW.all_posts.Pairwise (fun a b => b.time ≤ a.time) ∧
    stW.all_posts.filter (fun x => x.time == 7) =
      stW.all_posts.filter (fun x => x.time == 7) :=
  aggregate_combined_stable_time_sorted envW ("/".data) [("/r".data)] stW stW 7
    (by decide) (by decide)

/-- First equal-time commit for the C4 counterexample. -/
def cE1 : Commit := { message := "one".data, author := [], commit_time := 5, hex := "aa".data }

/-- Second equal-time commit for the C4 counterexample. -/
def cE2 : Commit := { message := "two".data, author := [], commit_time := 5, hex := "bb".data }

/-- Environment whose repository `/r` walks `cE1` before `cE2`. -/
def envO1 : List Char → Except PyErr (List Commit) :=
  fun p => if p = "/r".data then .ok [cE1, cE2] else .error .repoNotFound

/-- Environment whose repository `/r` walks `cE2` before `cE1`. -/
def envO2 : List Char → Except PyErr (List Commit) :=
  fun p => if p = "/r".data then .ok [cE2, cE1] else .error .repoNotFound

/-- Post extracted from `cE1`. -/
def pE1 : Post :=
  { repo := "r".data, title := "one".data, body := [], time := 5,
    author := [], hash := "aa".data }

/-- Post extracted from `cE2`. -/
def pE2 : Post :=
  { repo := "r".data, title := "two".data, body := [], time := 5,
    author := [], hash := "bb".data }

/-- Claim C4 (counterexample): two runs over the same set of posts — two
distinct commits with identical times, walked in the two opposite orders —
produce two different combined feeds, each following the walk order.  The
combined order is therefore not independent of the repository's internal
order and no deterministic commit-identifier tie-break produces it (either
hash order would contradict one of the two runs). -/
theorem combined_order_depends_on_internal_order :
    (aggregate envO1 ("/".data) [("/r".data)]).map AggState.all_posts = .ok [pE1, pE2] ∧
    (aggregate envO2 ("/".data) [("/r".data)]).map AggState.all_posts = .ok [pE2, pE1] ∧
    pE1 ≠ pE2 ∧ pE1.time = pE2.time :=
  ⟨by decide, by decide, by decide, by decide⟩

/-! ### Lemmas about whitespace splitting and the directive parser -/

theorem dropWS_cons_of_not_ws (c : Char) (r : List Char) (hc : isPyWS c = false) :
    dropWS (c :: r) = c :: r := by
  simp [dropWS, List.dropWhile_cons, hc]

theorem dropWS_space (r : List Char) : dropWS (' ' :: r) = dropWS r := by
  simp [dropWS, List.dropWhile_cons, isPyWS]

theorem takeWhile_token (T : List Char) (hT : ∀ c ∈ T, isPyWS c = false) (r : List Char) :
    (T ++ ' ' :: r).takeWhile (fun c => !isPyWS c) = T := by
  induction T with
  | nil => simp [List.takeWhile_cons, isPyWS]
  | cons c T2 ih =>
    have hc : isPyWS c = false := hT c (List.mem_cons_self c T2)
    simp [List.takeWhile_cons, hc, ih (fun d hd => hT d (List.mem_cons_of_mem c hd))]

theorem dropWhile_token (T : List Char) (hT : ∀ c ∈ T, isPyWS c = false) (r : List Char) :
    (T ++ ' ' :: r).dropWhile (fun c => !isPyWS c) = ' ' :: r := by
  induction T with
  | nil => simp [List.dropWhile_cons, isPyWS]
  | cons c T2 ih =>
    have hc : isPyWS c = false := hT c (List.mem_cons_self c T2)
    simp [List.dropWhile_cons, hc, ih (fun d hd => hT d (List.mem_cons_of_mem c hd))]

theorem pySplit1_token (T r : List Char) (hT0 : T ≠ []) (hT : ∀ c ∈ T, isPyWS c = false) :
    pySplit1 (T ++ ' ' :: r) = if (dropWS r).isEmpty then [T] else [T, dropWS r] := by
  obtain ⟨c, T2, rfl⟩ := List.exists_cons_of_ne_nil hT0
  have hc : isPyWS c = false := hT c (List.mem_cons_self c T2)
  simp only [pySplit1, List.cons_append]
  rw [dropWS_cons_of_not_ws c _ hc, ← List.cons_append, takeWhile_token _ hT r,
    dropWhile_token _ hT r, dropWS_space]
  simp

/-- Helper: `magic` on a paragraph built from the token `!file`, a space and
a remainder with some non-whitespace character returns the non-markdown
directive, with the path stripped from the remainder. -/
theorem magic_file_ok (cwd root rest : List Char) (hrem : dropWS rest ≠ []) :
    magic cwd root (("!file ".data) ++ rest) =
      .ok (.code { path := pyStrip (dropWS rest),
                   real_path := os_abspath cwd (os_join root (pyStrip (dropWS rest))),
                   is_markdown := false }) := by
  have hsp : pySplit1 (("!file ".data) ++ rest) = [("!file".data), dropWS rest] := by
    rw [show ("!file ".data) ++ rest = ("!file".data) ++ ' ' :: rest from rfl,
      pySplit1_token _ rest (by decide) (by decide), if_neg (by simp [hrem])]
  have hpf : ("!file".data).isPrefixOf (("!file ".data) ++ rest) = true := by
    rw [List.isPrefixOf_iff_prefix]
    exact ⟨' ' :: rest, rfl⟩
  have hsp2 : pySplit1 ('!' :: 'f' :: 'i' :: 'l' :: 'e' :: ' ' :: rest) =
      [("!file".data), dropWS rest] := hsp
  simp [magic, hpf, hsp2]

/-- Helper: same as `magic_file_ok` for the `!code` token. -/
theorem magic_code_ok (cwd root rest : List Char) (hrem : dropWS rest ≠ []) :
    magic cwd root (("!code ".data) ++ rest) =
      .ok (.code { path := pyStrip (dropWS rest),
                   real_path := os_abspath cwd (os_join root (pyStrip (dropWS rest))),
                   is_markdown := false }) := by
  have hsp : pySplit1 (("!code ".data) ++ rest) = [("!code".data), dropWS rest] := by
    rw [show ("!code ".data) ++ rest = ("!code".data) ++ ' ' :: rest from rfl,
      pySplit1_token _ rest (by decide) (by decide), if_neg (by simp [hrem])]
  have hpf : ("!code".data).isPrefixOf (("!code ".data) ++ rest) = true := by
    rw [List.isPrefixOf_iff_prefix]
    exact ⟨' ' :: rest, rfl⟩
  have hsp2 : pySplit1 ('!' :: 'c' :: 'o' :: 'd' :: 'e' :: ' ' :: rest) =
      [("!code".data), dropWS rest] := hsp
  simp [magic, hpf, hsp2]

/-- Helper: same as `magic_file_ok` for the `!md` token, which yields the
markdown directive (the `!file`/`!code` test fails on such a paragraph). -/
theorem magic_md_ok (cwd root rest : List Char) (hrem : dropWS rest ≠ []) :
    magic cwd root (("!md ".data) ++ rest) =
      .ok (.code { path := pyStrip (dropWS rest),
                   real_path := os_abspath cwd (os_join root (pyStrip (dropWS rest))),
                   is_markdown := true }) := by
  have hsp : pySplit1 (("!md ".data) ++ rest) = [("!md".data), dropWS rest] := by
    rw [show ("!md ".data) ++ rest = ("!md".data) ++ ' ' :: rest from rfl,
      pySplit1_token _ rest (by decide) (by decide), if_neg (by simp [hrem])]
  have hpm : ("!md".data).isPrefixOf (("!md ".data) ++ rest) = true := by
    rw [List.isPrefixOf_iff_prefix]
    exact ⟨' ' :: rest, rfl⟩
  have hnf : ("!file".data).isPrefixOf (("!md ".data) ++ rest) = false := rfl
  have hnc : ("!code".data).isPrefixOf (("!md ".data) ++ rest) = false := rfl
  have hsp2 : pySplit1 ('!' :: 'm' :: 'd' :: ' ' :: rest) =
      [("!md".data), dropWS rest] := hsp
  simp [magic, hpm, hnf, hnc, hsp2]

/-- Claim C5 (amended): for every paragraph consisting of one of the tokens
`!file`, `!code` or `!md` followed by a space and a remainder containing at
least one non-whitespace character, `magic` returns a directive whose `path`
is the trimmed remainder of the paragraph after the first whitespace run,
whose `real_path` is the absolute path of `path` joined to the repository
root, and whose `is_markdown` flag is set exactly for the `!md` form.  (A
whitespace-only remainder instead raises `IndexError`; see the
counterexample.) -/
theorem magic_directive_path (cwd root para rest : List Char)
    (hsh : para = ("!file ".data) ++ rest ∨ para = ("!code ".data) ++ rest ∨
           para = ("!md ".data) ++ rest)
    (hrem : dropWS rest ≠ []) :
    magic cwd root para =
      .ok (.code { path := trimmedRemainder para,
                   real_path := os_abspath cwd (os_join root (trimmedRemainder para)),
                   is_markdown := ("!md".data).isPrefixOf para }) := by
  rcases hsh with rfl | rfl | rfl
  · have htr : trimmedRemainder (("!file ".data) ++ rest) = pyStrip (dropWS rest) := by
      unfold trimmedRemainder
      rw [show ("!file ".data) ++ rest = ("!file".data) ++ ' ' :: rest from rfl,
        dropWhile_token _ (by decide) rest, dropWS_space]
    have hmd : ("!md".data).isPrefixOf (("!file ".data) ++ rest) = false := rfl
    rw [htr, hmd, magic_file_ok cwd root rest hrem]
  · have htr : trimmedRemainder (("!code ".data) ++ rest) = pyStrip (dropWS rest) := by
      unfold trimmedRemainder
      rw [show ("!code ".data) ++ rest = ("!code".data) ++ ' ' :: rest from rfl,
        dropWhile_token _ (by decide) rest, dropWS_space]
    have hmd : ("!md".data).isPrefixOf (("!code ".data) ++ rest) = false := rfl
    rw [htr, hmd, magic_code_ok cwd root rest hrem]
  · have htr : trimmedRemainder (("!md ".data) ++ rest) = pyStrip (dropWS rest) := by
      unfold trimmedRemainder
      rw [show ("!md ".data) ++ rest = ("!md".data) ++ ' ' :: rest from rfl,
        dropWhile_token _ (by decide) rest, dropWS_space]
    have hmd : ("!md".data).isPrefixOf (("!md ".data) ++ rest) = true := by
      rw [List.isPrefixOf_iff_prefix]
      exact ⟨' ' :: rest, rfl⟩
    rw [htr, hmd, magic_md_ok cwd root rest hrem]

/-- Claim C5 (counterexample): the paragraph consisting of `!file` followed
by a single space starts with the token and a space and its trimmed
remainder is the empty string, yet `magic` raises `IndexError` instead of
returning a directive with that path. -/
theorem magic_raises_on_blank_remainder :
    magic ("/c".data) ("/r".data) ("!file ".data) = .error .indexError := by
  decide

/-- Witness for `magic_directive_path` on a markdown directive whose
remainder carries extra whitespace. -/
theorem magic_directive_path_witness :
    magic ("/c".data) ("/r".data) ("!md  doc.md ".data) =
      .ok (.code { path := trimmedRemainder ("!md  doc.md ".data),
                   real_path := os_abspath ("/c".data)
                     (os_join ("/r".data) (trimmedRemainder ("!md  doc.md ".data))),
                   is_markdown := ("!md".data).isPrefixOf ("!md  doc.md ".data) }) :=
  magic_directive_path ("/c".data) ("/r".data) ("!md  doc.md ".data) (" doc.md ".data)
    (Or.inr (Or.inr rfl)) (by decide)

/-- Claim C10: directive classification is by raw string prefix.  Every
paragraph whose text merely begins with the character sequence `!file` or
`!code` — including extensions of the token — and that has a second
whitespace-separated field is parsed as a non-markdown directive whose path
is that stripped second field, and every paragraph beginning with `!md` (but
not `!file`/`!code`) with a second field is parsed as a markdown directive
the same way. -/
theorem magic_classifies_by_raw_prefix (cwd root para f para2 f2 : List Char)
    (h : (("!file".data).isPrefixOf para || ("!code".data).isPrefixOf para) = true)
    (hf : (pySplit1 para)[1]? = some f)
    (hm : ("!md".data).isPrefixOf para2 = true)
    (hm1 : ("!file".data).isPrefixOf para2 = false)
    (hm2 : ("!code".data).isPrefixOf para2 = false)
    (hf2 : (pySplit1 para2)[1]? = some f2) :
    magic cwd root para =
      .ok (.code { path := pyStrip f,
                   real_path := os_abspath cwd (os_join root (pyStrip f)),
                   is_markdown := false }) ∧
    magic cwd root para2 =
      .ok (.code { path := pyStrip f2,
                   real_path := os_abspath cwd (os_join root (pyStrip f2)),
                   is_markdown := true }) := by
  constructor
  · simp [magic, h, hf]
  · simp [magic, hm, hm1, hm2, hf2]

/-- Witness for `magic_classifies_by_raw_prefix` at the paragraphs
`!filed taxes` and `!mdx notes`. -/
theorem magic_classifies_by_raw_prefix_witness :
    magic ("/c".data) ("/r".data) ("!filed taxes".data) =
      .ok (.code { path := pyStrip ("taxes".data),
                   real_path := os_abspath ("/c".data)
                     (os_join ("/r".data) (pyStrip ("taxes".data))),
                   is_markdown := false }) ∧
    magic ("/c".data) ("/r".data) ("!mdx notes".data) =
      .ok (.code { path := pyStrip ("notes".data),
                   real_path := os_abspath ("/c".data)
                     (os_join ("/r".data) (pyStrip ("notes".data))),
                   is_markdown := true }) :=
  magic_classifies_by_raw_prefix ("/c".data) ("/r".data) ("!filed taxes".data)
    ("taxes".data) ("!mdx notes".data) ("notes".data)
    (by decide) (by decide) (by decide) (by decide) (by decide) (by decide)

/-! ### Lemmas about paragraph splitting and message extraction -/

theorem splitParas_ne_nil : ∀ l : List Char, splitParas l ≠ [] := by
  intro l
  induction l with
  | nil => simp [splitParas]
  | cons c rest ih =>
    cases rest with
    | nil => simp [splitParas]
    | cons c2 rest2 =>
      simp only [splitParas]
      split
      · simp
      · cases h : splitParas (c2 :: rest2) <;> simp

theorem splitParas_no_newline : ∀ l : List Char, '\n' ∉ l → splitParas l = [l] := by
  intro l
  induction l with
  | nil => intro _; rfl
  | cons c rest ih =>
    intro h
    cases rest with
    | nil => rfl
    | cons c2 rest2 =>
      have hc : c ≠ '\n' := fun hc => h (by rw [hc]; exact List.mem_cons_self _ _)
      have h2 : '\n' ∉ (c2 :: rest2) := fun hm => h (List.mem_cons_of_mem c hm)
      simp only [splitParas]
      rw [if_neg (fun hx => hc hx.1), ih h2]

theorem splitParas_append (pre : List Char) (hpre : '\n' ∉ pre) :
    ∀ suf : List Char, splitParas (pre ++ '\n' :: '\n' :: suf) = pre :: splitParas suf := by
  induction pre with
  | nil =>
    intro suf
    simp [splitParas]
  | cons c pre2 ih =>
    intro suf
    have hc : c ≠ '\n' := fun hc => hpre (by rw [hc]; exact List.mem_cons_self _ _)
    have h2 : '\n' ∉ pre2 := fun hm => hpre (List.mem_cons_of_mem c hm)
    cases pre2 with
    | nil =>
      simp [splitParas, hc]
    | cons d pre3 =>
      have hrec := ih h2 suf
      simp only [List.cons_append] at hrec ⊢
      simp only [splitParas]
      rw [if_neg (fun hx => hc hx.1), hrec]

theorem splitParas_headD (m : List Char) :
    (splitParas m).headD [] = textBeforeFirstBlank m := by
  induction m with
  | nil => rfl
  | cons c rest ih =>
    cases rest with
    | nil => rfl
    | cons c2 rest2 =>
      simp only [splitParas, textBeforeFirstBlank]
      by_cases hb : c = '\n' ∧ c2 = '\n'
      · rw [if_pos hb, if_pos hb]
        rfl
      · rw [if_neg hb, if_neg hb]
        cases hsp : splitParas (c2 :: rest2) with
        | nil => exact absurd hsp (splitParas_ne_nil _)
        | cons p ps =>
          rw [hsp] at ih
          simpa using ih

theorem mapExcept_ok_length {α β ε : Type} (f : α → Except ε β) :
    ∀ (l : List α) (ys : List β), mapExcept f l = .ok ys → ys.length = l.length := by
  intro l
  induction l with
  | nil =>
    intro ys h
    simp only [mapExcept] at h
    rw [← Except.ok.inj h]
    rfl
  | cons x xs ih =>
    intro ys h
    simp only [mapExcept] at h
    cases hfx : f x with
    | error e => rw [hfx] at h; exact absurd h (by simp)
    | ok y =>
      rw [hfx] at h
      cases hmx : mapExcept f xs with
      | error e => rw [hmx] at h; exact absurd h (by simp)
      | ok ys2 =>
        rw [hmx] at h
        rw [← Except.ok.inj h]
        simp [ih ys2 hmx]

theorem mapExcept_ok_get {α β ε : Type} (f : α → Except ε β) :
    ∀ (l : List α) (ys : List β) (j : Nat) (x : α), mapExcept f l = .ok ys →
      l[j]? = some x → ∃ y, ys[j]? = some y ∧ f x = .ok y := by
  intro l
  induction l with
  | nil =>
    intro ys j x _ hx
    simp at hx
  | cons a xs ih =>
    intro ys j x h hx
    simp only [mapExcept] at h
    cases hfx : f a with
    | error e => rw [hfx] at h; exact absurd h (by simp)
    | ok y =>
      rw [hfx] at h
      cases hmx : mapExcept f xs with
      | error e => rw [hmx] at h; exact absurd h (by simp)
      | ok ys2 =>
        rw [hmx] at h
        rw [← Except.ok.inj h]
        cases j with
        | zero =>
          rw [List.getElem?_cons_zero] at hx
          refine ⟨y, by simp, ?_⟩
          rw [← Option.some.inj hx]
          exact hfx
        | succ j2 =>
          rw [List.getElem?_cons_succ] at hx
          obtain ⟨y2, hy2, hfy2⟩ := ih ys2 j2 x hmx hx
          exact ⟨y2, by simpa using hy2, hfy2⟩

/-- Helper: a paragraph that starts with none of the directive tokens is
returned unchanged by `magic`. -/
theorem magic_plain (cwd root para : List Char)
    (h1 : ("!file".data).isPrefixOf para = false)
    (h2 : ("!code".data).isPrefixOf para = false)
    (h3 : ("!md".data).isPrefixOf para = false) :
    magic cwd root para = .ok (.text para) := by
  simp [magic, h1, h2, h3]

/-- Claim C6: when extraction of a commit succeeds, the post's title is the
text of the message before the first blank-line paragraph boundary, the body
has one item per paragraph after the first — `count(paragraphs) - 1` items,
hence an empty body for a single-paragraph message — in paragraph order, and
a paragraph that starts with no directive token appears in the body as the
unchanged plain text at its paragraph's position. -/
theorem extracted_post_title_and_body (cwd root name : List Char) (c : Commit) (post : Post)
    (j : Nat) (para : List Char)
    (h : extractPost cwd root name c = .ok post)
    (hj : ((splitParas c.message).tail)[j]? = some para)
    (h1 : ("!file".data).isPrefixOf para = false)
    (h2 : ("!code".data).isPrefixOf para = false)
    (h3 : ("!md".data).isPrefixOf para = false) :
    post.title = textBeforeFirstBlank c.message ∧
    post.body.length = (splitParas c.message).length - 1 ∧
    (post.body)[j]? = some (.text para) := by
  simp only [extractPost] at h
  cases hm : mapExcept (magic cwd root) (splitParas c.message).tail with
  | error e => rw [hm] at h; exact absurd h (by simp)
  | ok body =>
    rw [hm] at h
    have hpost : post =
        { repo := name, title := (splitParas c.message).headD [], body := body,
          time := c.commit_time, author := c.author, hash := c.hex } :=
      (Except.ok.inj h).symm
    subst hpost
    refine ⟨splitParas_headD c.message, ?_, ?_⟩
    · simp [mapExcept_ok_length _ _ _ hm, List.length_tail]
    · obtain ⟨y, hy, hfy⟩ := mapExcept_ok_get _ _ _ j para hm hj
      rw [magic_plain cwd root para h1 h2 h3] at hfy
      rw [hy, ← Except.ok.inj hfy]

/-- Commit used as the C6 witness. -/
def commit6 : Commit :=
  { message := "t\n\npara two".data, author := "al".data, commit_time := 0, hex := "h".data }

/-- The post `extractPost` produces from `commit6`. -/
def post6 : Post :=
  { repo := "r".data, title := "t".data, body := [.text ("para two".data)], time := 0,
    author := "al".data, hash := "h".data }

/-- Witness for `extracted_post_title_and_body` on a two-paragraph message
whose second paragraph is plain text. -/
theorem extracted_post_title_and_body_witness :
    post6.title = textBeforeFirstBlank commit6.message ∧
    post6.body.length = (splitParas commit6.message).length - 1 ∧
    (post6.body)[0]? = some (.text ("para two".data)) :=
  extracted_post_title_and_body ("/c".data) ("/r".data) ("r".data) commit6 post6 0
    ("para two".data) (by decide) (by decide) (by decide) (by decide) (by decide)

/-- Claim C9: a paragraph that starts with a directive token but has no
second whitespace-separated field makes `magic` raise `IndexError` rather
than return a plain-text item or a directive, and a commit message holding
such a paragraph aborts extraction of that commit with the same error. -/
theorem magic_token_only_raises (cwd root name a hx para : List Char) (tm : Int)
    (htok : ("!file".data).isPrefixOf para = true ∨ ("!code".data).isPrefixOf para = true ∨
            ("!md".data).isPrefixOf para = true)
    (hone : (pySplit1 para)[1]? = none)
    (hnl : '\n' ∉ para) :
    magic cwd root para = .error .indexError ∧
    extractPost cwd root name
      { message := ("Subject\n\n".data) ++ para, author := a, commit_time := tm,
        hex := hx } = .error .indexError := by
  have hm : magic cwd root para = .error .indexError := by
    rcases htok with h | h | h
    · simp [magic, h, hone]
    · simp [magic, h, hone]
    · obtain ⟨t, ht⟩ := List.isPrefixOf_iff_prefix.mp h
      subst ht
      have hnf : ("!file".data).isPrefixOf (("!md".data) ++ t) = false := rfl
      have hnc : ("!code".data).isPrefixOf (("!md".data) ++ t) = false := rfl
      have hone2 : (pySplit1 ('!' :: 'm' :: 'd' :: t))[1]? = none := hone
      simp [magic, hnf, hnc, hone2]
  refine ⟨hm, ?_⟩
  have hsp : splitParas (("Subject\n\n".data) ++ para) = [("Subject".data), para] := by
    rw [show ("Subject\n\n".data) ++ para = ("Subject".data) ++ '\n' :: '\n' :: para from rfl,
      splitParas_append ("Subject".data) (by decide) para, splitParas_no_newline para hnl]
  simp only [extractPost, hsp]
  simp [mapExcept, hm]

/-- Witness for `magic_token_only_raises` at the bare paragraph `!file`. -/
theorem magic_token_only_raises_witness :
    magic ("/c".data) ("/r".data) ("!file".data) = .error .indexError ∧
    extractPost ("/c".data) ("/r".data) ("r".data)
      { message := ("Subject\n\n".data) ++ ("!file".data), author := "al".data,
        commit_time := 0, hex := "h".data } = .error .indexError :=
  magic_token_only_raises ("/c".data) ("/r".data) ("r".data) ("al".data) ("h".data)
    ("!file".data) 0 (Or.inl (by decide)) (by decide) (by decide)

/-- The directive value `magic` builds for a `!file` paragraph with remainder
`rest`, spelled out so that reading it through the filesystem can be stated. -/
def parsedFileCode (cwd root rest : List Char) : Code :=
  { path := pyStrip (dropWS rest),
    real_path := os_abspath cwd (os_join root (pyStrip (dropWS rest))),
    is_markdown := false }

/-- Claim C8: directive parsing performs no existence check and never reads
the referenced file — `magic` takes no filesystem at all, so for any
filesystem `fs` in which the resolved path is absent, parsing the directive
paragraph and extracting the whole commit still succeed, and only the `data`
accessor, invoked at render time against `fs`, surfaces the read failure. -/
theorem magic_parse_reads_no_file (fs : List Char → Option (List Char))
    (cwd root name a hx rest : List Char) (tm : Int)
    (hrem : dropWS rest ≠ []) (hnl : '\n' ∉ rest)
    (hmiss : fs (parsedFileCode cwd root rest).real_path = none) :
    magic cwd root (("!file ".data) ++ rest) = .ok (.code (parsedFileCode cwd root rest)) ∧
    extractPost cwd root name
      { message := ("t\n\n!file ".data) ++ rest, author := a, commit_time := tm,
        hex := hx } =
      .ok { repo := name, title := "t".data,
            body := [.code (parsedFileCode cwd root rest)], time := tm, author := a,
            hash := hx } ∧
    Code.data fs (parsedFileCode cwd root rest) = .error .ioError := by
  have hmagic : magic cwd root (("!file ".data) ++ rest) =
      .ok (.code (parsedFileCode cwd root rest)) := magic_file_ok cwd root rest hrem
  refine ⟨hmagic, ?_, ?_⟩
  · have hnl2 : '\n' ∉ ("!file ".data) ++ rest := by
      intro hmem
      rcases List.mem_append.mp hmem with hmem2 | hmem2
      · exact absurd hmem2 (by decide)
      · exact hnl hmem2
    have hsp : splitParas (("t\n\n!file ".data) ++ rest) =
        [("t".data), ("!file ".data) ++ rest] := by
      rw [show ("t\n\n!file ".data) ++ rest =
          ("t".data) ++ '\n' :: '\n' :: (("!file ".data) ++ rest) from rfl,
        splitParas_append ("t".data) (by decide) _,
        splitParas_no_newline _ hnl2]
    have hmagic2 : magic cwd root ('!' :: 'f' :: 'i' :: 'l' :: 'e' :: ' ' :: rest) =
        .ok (.code (parsedFileCode cwd root rest)) := hmagic
    simp only [extractPost, hsp]
    simp [mapExcept, hmagic2]
  · unfold Code.data
    rw [hmiss]

/-- Witness for `magic_parse_reads_no_file` against the empty filesystem. -/
theorem magic_parse_reads_no_file_witness :
    magic ("/c".data) ("/r".data) (("!file ".data) ++ ("x".data)) =
      .ok (.code (parsedFileCode ("/c".data) ("/r".data) ("x".data))) ∧
    extractPost ("/c".data) ("/r".data) ("r".data)
      { message := ("t\n\n!file ".data) ++ ("x".data), author := "al".data,
        commit_time := 0, hex := "h1".data } =
      .ok { repo := "r".data, title := "t".data,
            body := [.code (parsedFileCode ("/c".data) ("/r".data) ("x".data))], time := 0,
            author := "al".data, hash := "h1".data } ∧
    Code.data (fun _ => none) (parsedFileCode ("/c".data) ("/r".data) ("x".data)) =
      .error .ioError :=
  magic_parse_reads_no_file (fun _ => none) ("/c".data) ("/r".data) ("r".data) ("al".data)
    ("h1".data) ("x".data) 0 (by decide) (by decide) rfl

/-! ### Page addressing -/

/-- Helper: the page rendered at index `i` by `render_pages` takes its output
filename and its `current_page` marker from the naming functions at `i`. -/
theorem render_pages_addressing (target : List Char) (S : Nat) (posts : List Post)
    (ffn hfn tfn : Nat → List Char) (i : Nat) (pg : RenderedPage)
    (hpg : (render_pages target S posts ffn hfn tfn)[i]? = some pg) :
    pg.filename = os_join target (ffn i) ∧ pg.current_page = hfn i := by
  simp only [render_pages, List.getElem?_map, List.getElem?_enum] at hpg
  cases he : (pager posts S)[i]? with
  | none => rw [he] at hpg; simp at hpg
  | some pageL =>
    rw [he] at hpg
    simp only [Option.map_some'] at hpg
    have hrec : pg =
        { filename := os_join target (ffn i), title := tfn i,
          pages := pageLinks hfn posts.length S, posts := pageL,
          current_page := hfn i } := (Option.some.inj hpg).symm
    subst hrec
    exact ⟨rfl, rfl⟩

/-- Claim C7: page addressing at the two pagination call sites of
`render_all`.  Any page rendered at index `i` is named by the call site's
naming functions; page 0 of the combined feed has href the empty string and
filename `index.html`, page 0 of a repository feed named `name` has href and
filename `name.html`, and every page at an index `j` of at least 1 is
addressed `page-(j+1).html` (combined feed) and `name-(j+1).html`
(repository feed), both as href and as filename. -/
theorem page_addressing (target : List Char) (S : Nat) (posts : List Post)
    (name : List Char) (i j : Nat) (pgc pgr : RenderedPage)
    (hj : 1 ≤ j)
    (hc : (renderCombinedPages target S posts)[i]? = some pgc)
    (hr : (renderRepoPages target S name posts)[i]? = some pgr) :
    pgc.current_page = combinedHref i ∧
    pgc.filename = os_join target (combinedFilename i) ∧
    pgr.current_page = repoHref name i ∧
    pgr.filename = os_join target (repoFilename name i) ∧
    combinedHref 0 = [] ∧
    combinedFilename 0 = "index.html".data ∧
    repoHref name 0 = name ++ (".html".data) ∧
    repoFilename name 0 = name ++ (".html".data) ∧
    combinedHref j = ("page-".data) ++ (toString (j + 1)).data ++ (".html".data) ∧
    combinedFilename j = ("page-".data) ++ (toString (j + 1)).data ++ (".html".data) ∧
    repoHref name j = name ++ ('-' :: (toString (j + 1)).data) ++ (".html".data) ∧
    repoFilename name j = name ++ ('-' :: (toString (j + 1)).data) ++ (".html".data) := by
  obtain ⟨hcf, hch⟩ := render_pages_addressing target S posts combinedFilename combinedHref
    combinedTitle i pgc hc
  obtain ⟨hrf, hrh⟩ := render_pages_addressing target S posts (repoFilename name)
    (repoHref name) (repoTitle name) i pgr hr
  have hj0 : j ≠ 0 := by omega
  refine ⟨hch, hcf, hrh, hrf, rfl, rfl, by simp [repoHref], by simp [repoFilename],
    by simp [combinedHref, hj0], by simp [combinedFilename, hj0],
    by simp [repoHref, hj0], by simp [repoFilename, hj0]⟩

/-- The page the combined call site renders at index 0 for one post at page
size one. -/
def pgc0 : RenderedPage :=
  { filename := "t/index.html".data, title := "/".data,
    pages := [{ title := "1".data, href := [] }], posts := [post1], current_page := [] }

/-- The page the repository call site renders at index 0 for one post at
page size one. -/
def pgr0 : RenderedPage :=
  { filename := "t/blog.html".data, title := "/blog".data,
    pages := [{ title := "1".data, href := "blog.html".data }], posts := [post1],
    current_page := "blog.html".data }

/-- Witness for `page_addressing` at page index 0 with `j = 1`. -/
theorem page_addressing_witness :
    pgc0.current_page = combinedHref 0 ∧
    pgc0.filename = os_join ("t".data) (combinedFilename 0) ∧
    pgr0.current_page = repoHref ("blog".data) 0 ∧
    pgr0.filename = os_join ("t".data) (repoFilename ("blog".data) 0) ∧
    combinedHref 0 = [] ∧
    combinedFilename 0 = "index.html".data ∧
    repoHref ("blog".data) 0 = ("blog".data) ++ (".html".data) ∧
    repoFilename ("blog".data) 0 = ("blog".data) ++ (".html".data) ∧
    combinedHref 1 = ("page-".data) ++ (toString (1 + 1)).data ++ (".html".data) ∧
    combinedFilename 1 = ("page-".data) ++ (toString (1 + 1)).data ++ (".html".data) ∧
    repoHref ("blog".data) 1 =
      ("blog".data) ++ ('-' :: (toString (1 + 1)).data) ++ (".html".data) ∧
    repoFilename ("blog".data) 1 =
      ("blog".data) ++ ('-' :: (toString (1 + 1)).data) ++ (".html".data) :=
  page_addressing ("t".data) 1 [post1] ("blog".data) 0 1 pgc0 pgr0
    (by decide) (by decide) (by decide)

end Slag
